/-
Verification of the clawdlocal agent core: tool registry/execution,
message router, event loop, and the dual-tier memory manager.

The Go source is embedded shallowly:
  * Go maps keyed by strings are association lists `List (String × _)`
    (registration paths keep keys unique, so first-match lookup agrees
    with map lookup); where an algorithm iterates a Go map, the model
    iterates the association list in insertion order — the proved
    statements do not depend on iteration order except where noted.
  * `interface{}` payloads/results are a JSON-representable `Value`.
  * `time.Time` instants are `Nat`, `time.Duration` TTLs are `Int`
    seconds at call boundaries (only positivity and comparison with
    elapsed time matter to the code).
  * Go errors are `Option String` (`none` = nil) carrying the message
    produced by the source (`fmt.Errorf` / `errors.New` strings).
  * handler callbacks are pure functions threading an abstract state
    `σ`, so "handler X was invoked" is observable as the state update.
-/
import Mathlib

namespace Clawd

/-- JSON-representable opaque value standing in for Go `interface{}`
payloads and tool results. -/
inductive Value where
  | null : Value
  | str : String → Value
  | num : Int → Value
  | bool : Bool → Value
  deriving DecidableEq, Repr

/-! ## Tool registry (core/tools.go) -/

/-- Arguments of a tool call: Go `map[string]interface{}`. -/
abbrev ToolArgs := List (String × Value)

/-- `ToolHandler func(ctx, args) (interface{}, error)`: the context is
irrelevant to the registry's control flow, so a handler is
`args → Except message value`. -/
abbrev ToolHandlerFn := ToolArgs → Except String Value

/-- `Tool` from core/tools.go. -/
structure Tool where
  name : String
  description : String
  parameters : List (String × Value)
  handler : ToolHandlerFn

/-- `ToolCall` from core/tools.go. -/
structure ToolCall where
  id : String
  name : String
  args : ToolArgs

/-- `ToolResult` from core/tools.go: `Result interface{}` defaults to
nil (`none`), `Error string` defaults to `""`. -/
structure ToolResult where
  id : String
  name : String
  result : Option Value
  error : String

/-- The registry's `tools map[string]*Tool`, as an association list in
registration order. -/
abbrev ToolRegistry := List Tool

/-- `GetTool`: map lookup by name. -/
def getTool (tr : ToolRegistry) (name : String) : Option Tool :=
  tr.find? (fun t => t.name == name)

/-- `RegisterTool`: rejects a duplicate name with
`fmt.Errorf("tool %s already registered", ...)` leaving the map
untouched, otherwise stores the tool under its name. Returned as
(new registry state, error). -/
def registerTool (tr : ToolRegistry) (tool : Tool) : ToolRegistry × Option String :=
  if (getTool tr tool.name).isSome then
    (tr, some ("tool " ++ tool.name ++ " already registered"))
  else
    (tr ++ [tool], none)

/-- `ExecuteTool`: returns `(*ToolResult, error)`; every path of the
source returns a result and a nil error. -/
def executeTool (tr : ToolRegistry) (call : ToolCall) : ToolResult × Option String :=
  match getTool tr call.name with
  | none =>
      ({ id := call.id, name := call.name, result := none,
         error := "tool " ++ call.name ++ " not found" }, none)
  | some tool =>
      match tool.handler call.args with
      | .error msg =>
          ({ id := call.id, name := call.name, result := none, error := msg }, none)
      | .ok v =>
          ({ id := call.id, name := call.name, result := some v, error := "" }, none)

/-! ## Message router (core/message_handler.go) -/

/-- `MessageType`: the five declared constants. -/
inductive MessageType where
  | userInput | systemEvent | toolResponse | agentMessage | externalEvent
  deriving DecidableEq, Repr

/-- Wire string of each message type (the constants' values). -/
def MessageType.str : MessageType → String
  | .userInput => "user_input"
  | .systemEvent => "system_event"
  | .toolResponse => "tool_response"
  | .agentMessage => "agent_message"
  | .externalEvent => "external_event"

/-- The list `RegisterHandler` loops over (all five types, in source
order). -/
def allMessageTypes : List MessageType :=
  [.userInput, .systemEvent, .toolResponse, .agentMessage, .externalEvent]

/-- `Message` from core/message_handler.go. -/
structure Message where
  id : String
  type : MessageType
  source : String
  target : String
  payload : Value
  timestamp : Nat

/-- A `MessageHandler` implementation: `Handle` threads an abstract
effect state `σ` and returns the Go error (`none` = nil). -/
structure MessageHandler (σ : Type) where
  canHandle : MessageType → Bool
  priority : Int
  handle : Message → σ → σ × Option String

/-- Router state: `handlers map[MessageType][]MessageHandler`; `none`
models a key absent from the map. -/
structure MessageRouter (σ : Type) where
  handlers : MessageType → Option (List (MessageHandler σ))

/-- `NewMessageRouter`: empty map. -/
def newMessageRouter (σ : Type) : MessageRouter σ := ⟨fun _ => none⟩

/-- The backward bubble pass of `RegisterHandler`: after appending `h`,
the loop swaps `h` leftwards while its priority is strictly below its
predecessor's and breaks at the first predecessor with priority ≤ h's.
Equivalently, `h` lands immediately before the longest suffix whose
members all have strictly greater priority. -/
def insertFromRight {σ : Type} (h : MessageHandler σ) :
    List (MessageHandler σ) → List (MessageHandler σ)
  | [] => [h]
  | x :: xs =>
      if (x :: xs).all (fun y => h.priority < y.priority) then h :: x :: xs
      else x :: insertFromRight h xs

/-- One iteration of `RegisterHandler`'s loop body for message type `t`:
append `h` to the type's list (creating the map entry if absent, as Go
`append(r.handlers[msgType], handler)` does) and run the bubble pass. -/
def registerOne {σ : Type} (h : MessageHandler σ) (t : MessageType)
    (f : MessageType → Option (List (MessageHandler σ))) :
    MessageType → Option (List (MessageHandler σ)) :=
  if h.canHandle t then
    fun u => if u = t then some (insertFromRight h ((f t).getD [])) else f u
  else f

/-- `RegisterHandler`: loops over the five message types. -/
def registerHandler {σ : Type} (r : MessageRouter σ) (h : MessageHandler σ) :
    MessageRouter σ :=
  ⟨allMessageTypes.foldl (fun f t => registerOne h t f) r.handlers⟩

/-- Body of `Route`'s loop: invoke every handler, remembering the first
non-nil error. -/
def routeStep {σ : Type} (msg : Message) (acc : σ × Option String)
    (h : MessageHandler σ) : σ × Option String :=
  let r := h.handle msg acc.1
  (r.1, match acc.2 with
        | some e => some e
        | none => r.2)

/-- `Route`: missing map entry fails with the no-handlers error; else
every handler in the list runs, in order, and the first error (if any)
is returned with an `.ok`-wrapped nil/non-nil Go error. -/
def route {σ : Type} (r : MessageRouter σ) (msg : Message) (s : σ) :
    σ × Except String (Option String) :=
  match r.handlers msg.type with
  | none =>
      (s, .error ("no handlers registered for message type: " ++ msg.type.str))
  | some hs =>
      let out := hs.foldl (routeStep msg) (s, none)
      (out.1, .ok out.2)

/-- `GetHandlers`: defensive copy (in a pure model, the list itself). -/
def getHandlers {σ : Type} (r : MessageRouter σ) (t : MessageType) :
    List (MessageHandler σ) :=
  match r.handlers t with
  | none => []
  | some hs => hs

/-! ## Event loop (event_loop source, src/unnamed/part_006) -/

/-- `EventType`: the five declared constants. -/
inductive EventType where
  | message | toolCall | system | heartbeat | cron
  deriving DecidableEq, Repr

/-- `Event` from the event loop source. -/
structure Event where
  id : String
  type : EventType
  timestamp : Nat
  data : Value

/-- An `EventHandler` implementation (no priority): `Handle` threads an
abstract effect state `σ`. -/
structure EventHandler (σ : Type) where
  canHandle : EventType → Bool
  handle : Event → σ → σ × Option String

/-- Sequential state of an `EventLoop`: the `running` flag, whether its
context has been cancelled, the buffered channel contents (FIFO) and the
channel capacity. -/
structure EventLoopState (σ : Type) where
  running : Bool
  cancelled : Bool
  queue : List Event
  cap : Nat
  handlers : List (EventHandler σ)

/-- `errors.New("event loop is not running")`. -/
def errEventLoopNotRunning : String := "event loop is not running"

/-- `errors.New("event queue is full")`. -/
def errEventQueueFull : String := "event queue is full"

/-- `NewEventLoop`: non-positive `maxQueueSize` is replaced by 1000;
the channel is created with that capacity, no handlers, not started. -/
def newEventLoop (σ : Type) (maxQueueSize : Int) : EventLoopState σ :=
  { running := false
    cancelled := false
    queue := []
    cap := if maxQueueSize ≤ 0 then 1000 else maxQueueSize.toNat
    handlers := [] }

/-- `RegisterHandler`: appends. -/
def elRegisterHandler {σ : Type} (el : EventLoopState σ) (h : EventHandler σ) :
    EventLoopState σ :=
  { el with handlers := el.handlers ++ [h] }

/-- `Start`: no-op when already running, else sets the flag (the spawned
consumer is modelled separately by `handleEvent`). -/
def elStart {σ : Type} (el : EventLoopState σ) : EventLoopState σ :=
  if el.running then el else { el with running := true }

/-- `Stop`: no-op when not running, else clears the flag and cancels the
context (and closes the channel). -/
def elStop {σ : Type} (el : EventLoopState σ) : EventLoopState σ :=
  if ¬el.running then el else { el with running := false, cancelled := true }

/-- `Emit`: not-running check first; then a non-blocking `select` over
{send, ctx.Done, default}. When the context is live the select is
deterministic: send if a slot is free, otherwise the default case
returns the queue-full error. (When both send and Done are ready Go
picks randomly; that state is unreachable through Start/Stop, and no
theorem below depends on the order chosen here.) -/
def emit {σ : Type} (el : EventLoopState σ) (e : Event) :
    EventLoopState σ × Option String :=
  if ¬el.running then (el, some errEventLoopNotRunning)
  else if el.queue.length < el.cap then ({ el with queue := el.queue ++ [e] }, none)
  else if el.cancelled then (el, some "context canceled")
  else (el, some errEventQueueFull)

/-- `Emit` repeatedly, collecting each call's returned error (the
consumer is not draining in between). -/
def emitSeq {σ : Type} (el : EventLoopState σ) :
    List Event → EventLoopState σ × List (Option String)
  | [] => (el, [])
  | e :: es =>
      let r := emit el e
      let rest := emitSeq r.1 es
      (rest.1, r.2 :: rest.2)

/-- Body of `handleEvent`'s loop over the handler snapshot: skip
handlers whose `CanHandle` is false; invoke the rest; on handler error
log and `continue` (the `handled` flag is set only on success). -/
def handleEventStep {σ : Type} (e : Event) (acc : σ × Bool)
    (h : EventHandler σ) : σ × Bool :=
  if h.canHandle e.type then
    let r := h.handle e acc.1
    match r.2 with
    | some _ => (r.1, acc.2)
    | none => (r.1, true)
  else acc

/-- `handleEvent`: iterates a snapshot of the registered handlers in
registration order; an unmatched event only produces a warning log; the
function returns nil on every path. -/
def handleEvent {σ : Type} (el : EventLoopState σ) (e : Event) (s : σ) :
    σ × Option String :=
  let out := el.handlers.foldl (handleEventStep e) (s, false)
  (out.1, none)

/-! ## Memory manager (src/test/memory.go) -/

/-- `MemoryEntry`: key, opaque value, write timestamp, optional TTL.
Time instants and durations are in the same abstract unit. -/
structure MemoryEntry where
  key : String
  value : Value
  timestamp : Nat
  ttl : Option Nat
  deriving DecidableEq, Repr

/-- `MemoryConfig` (the parts the embedded operations read). -/
structure MemoryConfig where
  shortTermCapacity : Nat

/-- A string-keyed Go map of entries, as an association list in
insertion order with unique keys. -/
abbrev MemoryMap := List (String × MemoryEntry)

/-- Go `m[key] = entry`: overwrite-or-append keeping keys unique. -/
def mapSet (m : MemoryMap) (key : String) (e : MemoryEntry) : MemoryMap :=
  m.filter (fun p => p.1 ≠ key) ++ [(key, e)]

/-- Go `delete(m, key)`. -/
def mapDelete (m : MemoryMap) (key : String) : MemoryMap :=
  m.filter (fun p => p.1 ≠ key)

/-- `MemoryManager` state (both tiers; the lock and logger have no
sequential behavior). -/
structure MemoryManager where
  shortTerm : MemoryMap
  longTerm : MemoryMap
  config : MemoryConfig

/-- The scan of `evictOldestShortTerm`: `oldestKey` starts `""` and
`oldestTime` starts `time.Now()`; an entry becomes the candidate when
its timestamp is strictly before the best so far. -/
def evictScan (m : MemoryMap) (now : Nat) : String × Nat :=
  m.foldl
    (fun acc p => if p.2.timestamp < acc.2 then (p.1, p.2.timestamp) else acc)
    ("", now)

/-- `evictOldestShortTerm`: empty map is a no-op; otherwise delete the
scanned key — but only when `oldestKey != ""`, the source's sentinel for
"no candidate found". -/
def evictOldestShortTerm (m : MemoryMap) (now : Nat) : MemoryMap :=
  if m.isEmpty then m
  else
    let best := evictScan m now
    if best.1 ≠ "" then mapDelete m best.1 else m

/-- `SetShortTermMemory`: build the entry (TTL attached only when
positive), insert, then evict once if the size exceeds capacity.
Returns nil on every path; `now` stands for `time.Now()` (the eviction
scan's second `time.Now()` call is taken at the same instant). -/
def setShortTermMemory (mm : MemoryManager) (key : String) (value : Value)
    (ttl : Int) (now : Nat) : MemoryManager × Option String :=
  let entry : MemoryEntry :=
    { key := key, value := value, timestamp := now,
      ttl := if 0 < ttl then some ttl.toNat else none }
  let st := mapSet mm.shortTerm key entry
  let st :=
    if mm.config.shortTermCapacity < st.length then evictOldestShortTerm st now
    else st
  ({ mm with shortTerm := st }, none)

/-- `GetShortTermMemory`: `(value, found, error)` plus the possibly
mutated manager. Absent keys and expired entries (elapsed strictly
greater than TTL) report `found = false` with a nil error; an expired
entry is deleted on the way out. -/
def getShortTermMemory (mm : MemoryManager) (key : String) (now : Nat) :
    (Option Value × Bool × Option String) × MemoryManager :=
  match mm.shortTerm.lookup key with
  | none => ((none, false, none), mm)
  | some entry =>
      match entry.ttl with
      | some t =>
          if t < now - entry.timestamp then
            ((none, false, none), { mm with shortTerm := mapDelete mm.shortTerm key })
          else ((some entry.value, true, none), mm)
      | none => ((some entry.value, true, none), mm)

/-! Long-term persistence. The durable file's contents are modelled
structurally: `none` is a missing file, `some .empty` a zero-length
file, `some (.data m)` a file holding the JSON snapshot of map `m`
(JSON marshalling of a concrete map followed by unmarshalling
reproduces the map, so the snapshot is kept structured). -/

/-- Structured contents of the long-term storage file. -/
inductive LongTermFileData where
  | empty : LongTermFileData
  | data : MemoryMap → LongTermFileData

/-- The long-term storage file: `none` = file does not exist. -/
abbrev LongTermFile := Option LongTermFileData

/-- `saveLongTermMemory`: full snapshot rewrite of the whole long-term
map (directory creation and the write itself succeed in this model). -/
def saveLongTermMemory (mm : MemoryManager) : LongTermFile :=
  some (.data mm.longTerm)

/-- `loadLongTermMemory`: a missing or empty file is not an error and
leaves the map as it was (empty at construction); otherwise the
unmarshalled snapshot replaces the map. Returns (map, error). -/
def loadLongTermMemory (prev : MemoryMap) (file : LongTermFile) :
    MemoryMap × Option String :=
  match file with
  | none => (prev, none)
  | some .empty => (prev, none)
  | some (.data m) => (m, none)

/-- `NewMemoryManager`: start with empty tiers, then load the long-term
file (a load error would only be logged; here the load never fails). -/
def newMemoryManager (config : MemoryConfig) (file : LongTermFile) :
    MemoryManager :=
  let loaded := loadLongTermMemory [] file
  { shortTerm := [], longTerm := loaded.1, config := config }

/-- `SetLongTermMemory`: insert, then synchronously rewrite the file;
returns the save's error (nil here). -/
def setLongTermMemory (mm : MemoryManager) (key : String) (value : Value)
    (now : Nat) : MemoryManager × LongTermFile × Option String :=
  let entry : MemoryEntry :=
    { key := key, value := value, timestamp := now, ttl := none }
  let mm := { mm with longTerm := mapSet mm.longTerm key entry }
  (mm, saveLongTermMemory mm, none)

/-- `GetLongTermMemory`: `(value, found, error)`; no expiry, no
mutation. -/
def getLongTermMemory (mm : MemoryManager) (key : String) :
    Option Value × Bool × Option String :=
  match mm.longTerm.lookup key with
  | none => (none, false, none)
  | some entry => (some entry.value, true, none)

/-! ## Concrete instances used in counterexamples and witnesses -/

/-- A tool whose handler fails with an empty error message
(`errors.New("")` is a legal Go error). -/
def emptyMsgTool : Tool :=
  { name := "t", description := "", parameters := [], handler := fun _ => .error "" }

/-- A tool whose handler succeeds with `.num 7`. -/
def okTool : Tool :=
  { name := "x", description := "", parameters := [], handler := fun _ => .ok (.num 7) }

/-- A registration-conflict probe tool. -/
def aTool : Tool :=
  { name := "a", description := "", parameters := [], handler := fun _ => .ok .null }

/-- A memory manager with short-term capacity 1 and empty tiers. -/
def capOneManager : MemoryManager :=
  { shortTerm := [], longTerm := [], config := { shortTermCapacity := 1 } }

/-- Insert key `""` at time 0, then key `"a"` at time 1, into the
capacity-1 manager: the second insert pushes the size to 2 and triggers
the eviction path. -/
def capOneAfterTwo : MemoryManager :=
  (setShortTermMemory
    (setShortTermMemory capOneManager "" .null 0 0).1 "a" .null 0 1).1

/-- Per-handler errors of a `Route` call in invocation order: handler
`i` runs on the state left by handlers `0..i-1`. -/
def routeErrors {σ : Type} (msg : Message) :
    List (MessageHandler σ) → σ → List (Option String)
  | [], _ => []
  | h :: t, s =>
      let r := h.handle msg s
      r.2 :: routeErrors msg t r.1

/-- A message handler for witnesses over a `List Nat` trace: records its
number, returns the given error, handles only `user_input`. -/
def traceMsgHandler (n : Nat) (p : Int) (err : Option String) :
    MessageHandler (List Nat) :=
  { canHandle := fun t => t = .userInput
    priority := p
    handle := fun _ s => (s ++ [n], err) }

/-- An event handler for witnesses over a `List Nat` trace: records its
number, returns the given error, handles only `system` events. -/
def traceEvtHandler (n : Nat) (err : Option String) : EventHandler (List Nat) :=
  { canHandle := fun t => t = .system
    handle := fun _ s => (s ++ [n], err) }

/-- A `user_input` message for witnesses. -/
def demoMessage : Message :=
  { id := "m", type := .userInput, source := "", target := "", payload := .null,
    timestamp := 0 }

/-- A `system` event for witnesses. -/
def demoEvent : Event :=
  { id := "e", type := .system, timestamp := 0, data := .null }

/-- An effect-free `user_input` handler of priority 50. -/
def prio50Handler : MessageHandler Unit :=
  { canHandle := fun t => t = .userInput, priority := 50,
    handle := fun _ s => (s, none) }

/-- An effect-free `user_input` handler of priority 10. -/
def prio10Handler : MessageHandler Unit :=
  { canHandle := fun t => t = .userInput, priority := 10,
    handle := fun _ s => (s, none) }

/-! ## Theorems -/

/-- The not-found message `"tool <name> not found"` is never empty. -/
theorem toolNotFoundMsg_ne_empty (name : String) :
    "tool " ++ name ++ " not found" ≠ "" := by
  intro h
  have h2 := congrArg String.length h
  simp [String.length_append] at h2
  exact absurd h2.1.1 (by decide)

/-- C1 counterexample: a handler may return a Go error whose message is
empty; `ExecuteTool` copies that message verbatim, so the result's
`Error` field is the empty string even though the handler errored,
refuting "the result's Error field is that error's non-empty message". -/
theorem executeTool_emptyHandlerError_counterexample :
    emptyMsgTool.handler [] = .error "" ∧
    getTool [emptyMsgTool] "t" = some emptyMsgTool ∧
    (executeTool [emptyMsgTool] ⟨"1", "t", []⟩).1.error = "" ∧
    (executeTool [emptyMsgTool] ⟨"1", "t", []⟩).1.result = none :=
  ⟨rfl, rfl, rfl, rfl⟩

/-- C1 (amended): `ExecuteTool` always returns a result and a nil Go
error; the result carries the call's id and name; an unregistered name
yields an empty `Result` and the non-empty not-found message; a handler
error yields an empty `Result` and exactly the error's message (which is
non-empty whenever the handler's message is); a handler success yields
the handler's value and an empty `Error`. -/
theorem executeTool_contract (tr : ToolRegistry) (call : ToolCall) :
    (executeTool tr call).2 = none ∧
    (executeTool tr call).1.id = call.id ∧
    (executeTool tr call).1.name = call.name ∧
    (getTool tr call.name = none →
      (executeTool tr call).1.error = "tool " ++ call.name ++ " not found" ∧
      (executeTool tr call).1.error ≠ "" ∧
      (executeTool tr call).1.result = none) ∧
    (∀ tool msg, getTool tr call.name = some tool →
      tool.handler call.args = .error msg →
      (executeTool tr call).1.error = msg ∧
      (executeTool tr call).1.result = none) ∧
    (∀ tool v, getTool tr call.name = some tool →
      tool.handler call.args = .ok v →
      (executeTool tr call).1.result = some v ∧
      (executeTool tr call).1.error = "") := by
  refine ⟨?_, ?_, ?_, ?_, ?_, ?_⟩
  · cases hg : getTool tr call.name with
    | none => simp [executeTool, hg]
    | some tool => cases hh : tool.handler call.args <;> simp [executeTool, hg, hh]
  · cases hg : getTool tr call.name with
    | none => simp [executeTool, hg]
    | some tool => cases hh : tool.handler call.args <;> simp [executeTool, hg, hh]
  · cases hg : getTool tr call.name with
    | none => simp [executeTool, hg]
    | some tool => cases hh : tool.handler call.args <;> simp [executeTool, hg, hh]
  · intro hg
    have he : (executeTool tr call).1.error = "tool " ++ call.name ++ " not found" := by
      simp [executeTool, hg]
    refine ⟨he, ?_, by simp [executeTool, hg]⟩
    rw [he]
    exact toolNotFoundMsg_ne_empty call.name
  · intro tool msg hg hh
    simp [executeTool, hg, hh]
  · intro tool v hg hh
    simp [executeTool, hg, hh]

/-- C1 witness: the success branch of the contract at a concrete
registry and call. -/
theorem executeTool_contract_witness :
    getTool [okTool] "x" = some okTool ∧
    okTool.handler [] = .ok (.num 7) ∧
    (executeTool [okTool] ⟨"1", "x", []⟩).1.result = some (.num 7) ∧
    (executeTool [okTool] ⟨"1", "x", []⟩).1.error = "" := by
  have h := (executeTool_contract [okTool] ⟨"1", "x", []⟩).2.2.2.2.2 okTool (.num 7) rfl rfl
  exact ⟨rfl, rfl, h.1, h.2⟩

/-- One `RegisterTool` step keeps stored names unique. -/
theorem registerTool_nodup (tr : ToolRegistry) (tool : Tool)
    (h : (tr.map Tool.name).Nodup) :
    (((registerTool tr tool).1).map Tool.name).Nodup := by
  by_cases hg : (getTool tr tool.name).isSome
  · simpa [registerTool, hg] using h
  · have hnone : getTool tr tool.name = none := by
      cases hx : getTool tr tool.name with
      | none => rfl
      | some t => rw [hx] at hg; simp at hg
    have hmem : tool.name ∉ tr.map Tool.name := by
      intro hmem
      obtain ⟨t, ht, hname⟩ := List.mem_map.mp hmem
      have := List.find?_eq_none.mp hnone t ht
      simp [hname] at this
    simp [registerTool, hg, List.nodup_append, h, hmem]

/-- C9: `RegisterTool` fails exactly when the name is taken; on failure
it returns the already-registered error and leaves the registry
untouched; otherwise it stores the tool and returns nil; consequently a
registry built from fresh by any sequence of registrations has pairwise
distinct tool names. -/
theorem registerTool_contract (tr : ToolRegistry) (tool : Tool) :
    ((registerTool tr tool).2.isSome ↔ (getTool tr tool.name).isSome) ∧
    ((getTool tr tool.name).isSome →
      registerTool tr tool = (tr, some ("tool " ++ tool.name ++ " already registered"))) ∧
    (getTool tr tool.name = none →
      registerTool tr tool = (tr ++ [tool], none)) ∧
    (∀ tools : List Tool,
      ((tools.foldl (fun acc t => (registerTool acc t).1) []).map Tool.name).Nodup) := by
  refine ⟨?_, ?_, ?_, ?_⟩
  · by_cases hg : (getTool tr tool.name).isSome <;> simp [registerTool, hg]
  · intro hg; simp [registerTool, hg]
  · intro hg; simp [registerTool, hg]
  · intro tools
    suffices h : ∀ (acc : ToolRegistry), (acc.map Tool.name).Nodup →
        ((tools.foldl (fun acc t => (registerTool acc t).1) acc).map Tool.name).Nodup by
      exact h [] (by simp)
    induction tools with
    | nil => intro acc hacc; simpa using hacc
    | cons t ts ih =>
        intro acc hacc
        exact ih _ (registerTool_nodup acc t hacc)

/-- C9 witness: both branches of the contract at concrete registries. -/
theorem registerTool_contract_witness :
    registerTool [] aTool = ([aTool], none) ∧
    registerTool [aTool] aTool =
      ([aTool], some ("tool " ++ "a" ++ " already registered")) := by
  refine ⟨(registerTool_contract [] aTool).2.2.1 rfl, ?_⟩
  have h := (registerTool_contract [aTool] aTool).2.1 (by rfl)
  simpa using h

/-- C10: a non-positive `maxQueueSize` is silently replaced by the
default capacity 1000 (construction never fails), and a positive one is
used as the channel capacity unchanged. -/
theorem newEventLoop_capacity (n : Int) :
    (n ≤ 0 → (newEventLoop Unit n).cap = 1000) ∧
    (0 < n → ((newEventLoop Unit n).cap : Int) = n) := by
  constructor
  · intro h; simp [newEventLoop, h]
  · intro h
    have hne : ¬n ≤ 0 := by omega
    simp [newEventLoop, hne, Int.toNat_of_nonneg (le_of_lt h)]

/-- C10 witness: the contract at -5 (default applies) and at 7. -/
theorem newEventLoop_capacity_witness :
    (newEventLoop Unit (-5)).cap = 1000 ∧ ((newEventLoop Unit 7).cap : Int) = 7 :=
  ⟨(newEventLoop_capacity (-5)).1 (by norm_num),
   (newEventLoop_capacity 7).2 (by norm_num)⟩

/-- Deleting a key removes it from lookup. -/
theorem lookup_mapDelete (m : MemoryMap) (k : String) :
    (mapDelete m k).lookup k = none := by
  induction m with
  | nil => rfl
  | cons p m ih =>
      obtain ⟨a, e⟩ := p
      by_cases h : a = k
      · simpa [mapDelete, h] using ih
      · have hb : (k == a) = false := beq_eq_false_iff_ne.mpr (Ne.symm h)
        have hstep : mapDelete ((a, e) :: m) k = (a, e) :: mapDelete m k := by
          simp [mapDelete, List.filter_cons, h]
        rw [hstep]
        simp only [List.lookup, hb]
        exact ih

/-- Setting a key makes it the entry found by lookup. -/
theorem lookup_mapSet_self (m : MemoryMap) (k : String) (e : MemoryEntry) :
    (mapSet m k e).lookup k = some e := by
  induction m with
  | nil => simp [mapSet, List.lookup]
  | cons p m ih =>
      obtain ⟨a, e2⟩ := p
      by_cases h : a = k
      · simpa [mapSet, h] using ih
      · have hb : (k == a) = false := beq_eq_false_iff_ne.mpr (Ne.symm h)
        have hstep : mapSet ((a, e2) :: m) k e = (a, e2) :: mapSet m k e := by
          simp [mapSet, List.filter_cons, h]
        rw [hstep]
        simp only [List.lookup, hb]
        exact ih

/-- C3: `GetShortTermMemory` reports an absent key as
`(nil, false, nil)` without touching the store; an entry whose TTL has
elapsed (`now - timestamp > ttl`) is deleted from the store and reported
as `(nil, false, nil)`; otherwise the stored value is returned as
`(value, true, nil)`. No branch returns an error value. -/
theorem getShortTermMemory_contract (mm : MemoryManager) (key : String) (now : Nat) :
    (mm.shortTerm.lookup key = none →
      getShortTermMemory mm key now = ((none, false, none), mm)) ∧
    (∀ e t, mm.shortTerm.lookup key = some e → e.ttl = some t →
      t < now - e.timestamp →
      getShortTermMemory mm key now =
        ((none, false, none), { mm with shortTerm := mapDelete mm.shortTerm key }) ∧
      (mapDelete mm.shortTerm key).lookup key = none) ∧
    (∀ e, mm.shortTerm.lookup key = some e →
      (e.ttl = none ∨ ∃ t, e.ttl = some t ∧ now - e.timestamp ≤ t) →
      getShortTermMemory mm key now = ((some e.value, true, none), mm)) := by
  refine ⟨?_, ?_, ?_⟩
  · intro h; simp [getShortTermMemory, h]
  · intro e t hl ht hexp
    refine ⟨?_, lookup_mapDelete mm.shortTerm key⟩
    simp [getShortTermMemory, hl, ht, hexp]
  · intro e hl hlive
    rcases hlive with hnone | ⟨t, ht, hle⟩
    · simp [getShortTermMemory, hl, hnone]
    · simp [getShortTermMemory, hl, ht, Nat.not_lt.mpr hle]

/-- C3 witness: the three branches at a concrete one-entry store
(present-and-live at time 1, expired at time 5, absent key). -/
theorem getShortTermMemory_contract_witness :
    (getShortTermMemory (setShortTermMemory capOneManager "k" (.num 3) 2 0).1 "k" 1
      = ((some (.num 3), true, none), (setShortTermMemory capOneManager "k" (.num 3) 2 0).1) ∧
     getShortTermMemory (setShortTermMemory capOneManager "k" (.num 3) 2 0).1 "missing" 1
      = ((none, false, none), (setShortTermMemory capOneManager "k" (.num 3) 2 0).1) ∧
     (getShortTermMemory (setShortTermMemory capOneManager "k" (.num 3) 2 0).1 "k" 5).1
      = (none, false, none)) := by
  have h := getShortTermMemory_contract (setShortTermMemory capOneManager "k" (.num 3) 2 0).1 "k" 1
  have h2 := getShortTermMemory_contract (setShortTermMemory capOneManager "k" (.num 3) 2 0).1 "missing" 1
  have h3 := getShortTermMemory_contract (setShortTermMemory capOneManager "k" (.num 3) 2 0).1 "k" 5
  refine ⟨?_, h2.1 (by decide), ?_⟩
  · exact h.2.2 { key := "k", value := .num 3, timestamp := 0, ttl := some 2 }
      (by decide) (Or.inr ⟨2, rfl, by decide⟩)
  · have := (h3.2.1 { key := "k", value := .num 3, timestamp := 0, ttl := some 2 } 2
      (by decide) rfl (by decide)).1
    rw [this]

/-- C4: evaluating the eviction path at the failing input — short-term
capacity 1, key `""` inserted at time 0, key `"a"` inserted at time 1.
The oldest entry's key is the empty string, which
`evictOldestShortTerm` uses as its not-found sentinel, so nothing is
evicted and both keys stay resident (2 entries in a capacity-1 store),
contradicting "evicts exactly one entry — the one whose stored
timestamp is smallest". -/
theorem setShortTermMemory_emptyKey_eviction_bug :
    capOneAfterTwo.config.shortTermCapacity = 1 ∧
    capOneAfterTwo.shortTerm.map Prod.fst = ["", "a"] := by
  exact ⟨rfl, by decide⟩

/-- C5: `SetLongTermMemory` reports no error and rewrites the snapshot
file; a fresh manager constructed over that file finds the value
(`(v, true)` with a nil error); a manager over a missing or empty file
is constructed without a load error and starts with an empty long-term
map. -/
theorem longTermMemory_roundTrip (cfg cfg2 : MemoryConfig) (mm : MemoryManager)
    (key : String) (value : Value) (now : Nat) :
    (setLongTermMemory mm key value now).2.2 = none ∧
    getLongTermMemory
        (newMemoryManager cfg2 (setLongTermMemory mm key value now).2.1) key
      = (some value, true, none) ∧
    (newMemoryManager cfg none).longTerm = [] ∧
    (loadLongTermMemory [] none).2 = none ∧
    (newMemoryManager cfg (some .empty)).longTerm = [] ∧
    (loadLongTermMemory [] (some .empty)).2 = none := by
  refine ⟨rfl, ?_, rfl, rfl, rfl, rfl⟩
  simp [setLongTermMemory, saveLongTermMemory, newMemoryManager,
    loadLongTermMemory, getLongTermMemory, lookup_mapSet_self]

/-- Filling a running, uncancelled loop: emits succeed while slots are
free, and the emit that finds the queue full gets the queue-full
error. -/
theorem emitSeq_fill {σ : Type} :
    ∀ (evs : List Event) (el : EventLoopState σ),
      el.running = true → el.cancelled = false →
      el.queue.length ≤ el.cap →
      el.queue.length + evs.length = el.cap + 1 →
      (emitSeq el evs).2
        = List.replicate (el.cap - el.queue.length) none ++ [some errEventQueueFull] := by
  intro evs
  induction evs with
  | nil => intro el _ _ hle hlen; simp at hlen; omega
  | cons e es ih =>
      intro el hrun hcan hle hlen
      by_cases hlt : el.queue.length < el.cap
      · have hemit : emit el e = ({ el with queue := el.queue ++ [e] }, none) := by
          simp [emit, hrun, hlt]
        have hrec := ih { el with queue := el.queue ++ [e] }
          (by simpa using hrun) (by simpa using hcan)
          (by simp; omega) (by simp at hlen ⊢; omega)
        have hsplit : el.cap - el.queue.length = (el.cap - (el.queue.length + 1)) + 1 := by
          omega
        simp only [emitSeq, hemit] at *
        rw [hrec, hsplit]
        simp [List.replicate_succ]
      · have hfull : el.queue.length = el.cap := by omega
        have hes : es = [] := by
          have := hlen
          simp at this
          have : es.length = 0 := by omega
          exact List.length_eq_zero.mp this
        have hemit : emit el e = (el, some errEventQueueFull) := by
          simp [emit, hrun, hcan, hlt]
        subst hes
        simp [emitSeq, hemit, hfull]

/-- C6: `Emit` fails with the not-running error whenever the loop is
not running — in particular on a freshly constructed loop and after
`Stop` — succeeds without blocking when the loop runs with a free slot,
fails with the queue-full error when the loop runs with no free slot
(the context being live, the non-blocking select takes the default
case), and with capacity N and no consumer draining, N emits into a
fresh started loop succeed and the (N+1)th returns the queue-full
error. -/
theorem emit_contract (σ : Type) :
    (∀ (el : EventLoopState σ) (e : Event), el.running = false →
      emit el e = (el, some errEventLoopNotRunning)) ∧
    (∀ (e : Event) (n : Int),
      emit (newEventLoop σ n) e = (newEventLoop σ n, some errEventLoopNotRunning)) ∧
    (∀ (el : EventLoopState σ) (e : Event),
      emit (elStop el) e = (elStop el, some errEventLoopNotRunning)) ∧
    (∀ (el : EventLoopState σ) (e : Event), el.running = true →
      el.queue.length < el.cap →
      emit el e = ({ el with queue := el.queue ++ [e] }, none)) ∧
    (∀ (el : EventLoopState σ) (e : Event), el.running = true →
      el.cancelled = false → el.cap ≤ el.queue.length →
      emit el e = (el, some errEventQueueFull)) ∧
    (∀ (n : Nat) (evs : List Event), 0 < n → evs.length = n + 1 →
      (emitSeq (elStart (newEventLoop σ n)) evs).2
        = List.replicate n none ++ [some errEventQueueFull]) := by
  refine ⟨?_, ?_, ?_, ?_, ?_, ?_⟩
  · intro el e h; simp [emit, h]
  · intro e n; simp [emit, newEventLoop]
  · intro el e
    have h : (elStop el).running = false := by
      by_cases hr : el.running <;> simp [elStop, hr]
    simp [emit, h]
  · intro el e hrun hlt; simp [emit, hrun, hlt]
  · intro el e hrun hcan hge
    simp [emit, hrun, hcan, Nat.not_lt.mpr hge]
  · intro n evs hn hlen
    have hstate : elStart (newEventLoop σ n) =
        { running := true, cancelled := false, queue := [],
          cap := (n : Int).toNat, handlers := [] } := by
      simp [elStart, newEventLoop]
      omega
    have hcap : ((n : Int)).toNat = n := Int.toNat_natCast n
    have h := emitSeq_fill evs (elStart (newEventLoop σ n))
      (by rw [hstate]) (by rw [hstate])
      (by rw [hstate]; simp) (by rw [hstate]; simp [hcap, hlen])
    rw [hstate] at h ⊢
    simpa [hcap] using h

/-- C6 witness: on a started fresh loop of capacity 1, the first emit
succeeds and the second returns the queue-full error; on the
unstarted and the stopped loop, emit returns the not-running error. -/
theorem emit_contract_witness :
    (emitSeq (elStart (newEventLoop Unit 1)) [demoEvent, demoEvent]).2
      = [none, some errEventQueueFull] ∧
    emit (newEventLoop Unit 1) demoEvent
      = (newEventLoop Unit 1, some errEventLoopNotRunning) ∧
    emit (elStop (elStart (newEventLoop Unit 1))) demoEvent
      = (elStop (elStart (newEventLoop Unit 1)), some errEventLoopNotRunning) := by
  have h := emit_contract Unit
  refine ⟨?_, h.2.1 demoEvent 1, h.2.2.1 (elStart (newEventLoop Unit 1)) demoEvent⟩
  have h6 := h.2.2.2.2.2 1 [demoEvent, demoEvent] (by norm_num) (by simp)
  simpa using h6

/-- The state produced by `Route`'s loop threads through every handler
in order, regardless of the error accumulator. -/
theorem foldl_routeStep_fst {σ : Type} (msg : Message) :
    ∀ (hs : List (MessageHandler σ)) (s : σ) (fe : Option String),
      (hs.foldl (routeStep msg) (s, fe)).1
        = hs.foldl (fun s h => (h.handle msg s).1) s := by
  intro hs
  induction hs with
  | nil => intro s fe; rfl
  | cons h t ih =>
      intro s fe
      simp only [List.foldl]
      rw [show routeStep msg (s, fe) h
            = ((h.handle msg s).1,
               match fe with | some e => some e | none => (h.handle msg s).2) from rfl]
      exact ih _ _

/-- Once an error is recorded, `Route`'s loop keeps it. -/
theorem foldl_routeStep_some {σ : Type} (msg : Message) :
    ∀ (hs : List (MessageHandler σ)) (s : σ) (err : String),
      (hs.foldl (routeStep msg) (s, some err)).2 = some err := by
  intro hs
  induction hs with
  | nil => intro s err; rfl
  | cons h t ih =>
      intro s err
      simp only [List.foldl]
      rw [show routeStep msg (s, some err) h = ((h.handle msg s).1, some err) from rfl]
      exact ih _ _

/-- `Route`'s loop returns the first non-nil error among the handlers'
results, taken in invocation order. -/
theorem foldl_routeStep_none {σ : Type} (msg : Message) :
    ∀ (hs : List (MessageHandler σ)) (s : σ),
      (hs.foldl (routeStep msg) (s, none)).2
        = (routeErrors msg hs s).findSome? id := by
  intro hs
  induction hs with
  | nil => intro s; rfl
  | cons h t ih =>
      intro s
      simp only [List.foldl, routeErrors]
      rw [show routeStep msg (s, none) h
            = ((h.handle msg s).1, (h.handle msg s).2) from rfl]
      cases herr : (h.handle msg s).2 with
      | none => simpa [List.findSome?_cons] using ih (h.handle msg s).1
      | some e => simp [List.findSome?_cons, foldl_routeStep_some]

/-- C7: `Route` fails with the no-handlers error, invoking nothing (the
state is untouched), exactly when no handler list is registered for the
message's type; otherwise it runs every handler of the list in order —
the final state is the fold of all the handlers' `Handle` calls, so an
erroring handler does not stop later ones — and returns `.ok` of the
first non-nil error in invocation order (`none` when no handler
errs). -/
theorem route_contract (σ : Type) (r : MessageRouter σ) (msg : Message) (s : σ) :
    (r.handlers msg.type = none →
      route r msg s =
        (s, .error ("no handlers registered for message type: " ++ msg.type.str))) ∧
    (∀ hs, r.handlers msg.type = some hs →
      route r msg s =
        (hs.foldl (fun s h => (h.handle msg s).1) s,
         .ok ((routeErrors msg hs s).findSome? id))) := by
  constructor
  · intro h; simp [route, h]
  · intro hs h
    simp only [route, h]
    rw [Prod.ext_iff]
    exact ⟨foldl_routeStep_fst msg hs s none,
      by rw [foldl_routeStep_none msg hs s]⟩

/-- C7 witness: two erroring `user_input` handlers both run (the trace
records 1 then 2), the first error is returned; the same message routed
through an empty router fails with the no-handlers error without
touching the trace. -/
theorem route_contract_witness :
    route ⟨fun t => if t = .userInput then
        some [traceMsgHandler 1 10 (some "e1"), traceMsgHandler 2 50 (some "e2")]
      else none⟩ demoMessage ([] : List Nat)
      = ([1, 2], .ok (some "e1")) ∧
    route (newMessageRouter (List Nat)) demoMessage ([] : List Nat)
      = ([], .error ("no handlers registered for message type: " ++ "user_input")) := by
  constructor
  · have h := (route_contract (List Nat)
      ⟨fun t => if t = .userInput then
          some [traceMsgHandler 1 10 (some "e1"), traceMsgHandler 2 50 (some "e2")]
        else none⟩ demoMessage []).2
      [traceMsgHandler 1 10 (some "e1"), traceMsgHandler 2 50 (some "e2")] rfl
    rw [h]; rfl
  · have h := (route_contract (List Nat)
      (newMessageRouter (List Nat)) demoMessage []).1 rfl
    rw [h]
    rfl

/-- The state produced by `handleEvent`'s loop threads through exactly
the handlers whose `CanHandle` matches, in registration order,
regardless of the `handled` flag. -/
theorem foldl_handleEventStep_fst {σ : Type} (e : Event) :
    ∀ (handlers : List (EventHandler σ)) (s : σ) (b : Bool),
      (handlers.foldl (handleEventStep e) (s, b)).1
        = (handlers.filter (fun h => h.canHandle e.type)).foldl
            (fun s h => (h.handle e s).1) s := by
  intro handlers
  induction handlers with
  | nil => intro s b; rfl
  | cons h t ih =>
      intro s b
      by_cases hc : h.canHandle e.type
      · simp only [List.foldl, List.filter_cons, hc, decide_True, if_true]
        rcases hr : h.handle e s with ⟨s2, err⟩
        cases err <;>
          simp only [handleEventStep, hc, if_true, hr] <;>
          exact ih _ _
      · simp only [List.foldl, List.filter_cons]
        rw [show handleEventStep e (s, b) h = (s, b) by simp [handleEventStep, hc]]
        simp only [hc, decide_False, if_false]
        exact ih _ _

/-- C8: the dispatch of one event invokes every registered handler
whose `CanHandle` matches the event type, in registration order — the
final state is the fold of exactly those handlers' `Handle` calls, so a
handler's error does not prevent later handlers from running —
`handleEvent` reports no error on any path, and an event matching zero
handlers leaves the state untouched and reports no error. -/
theorem handleEvent_contract (σ : Type) (el : EventLoopState σ) (e : Event) (s : σ) :
    (handleEvent el e s).2 = none ∧
    (handleEvent el e s).1
      = (el.handlers.filter (fun h => h.canHandle e.type)).foldl
          (fun s h => (h.handle e s).1) s ∧
    (el.handlers.filter (fun h => h.canHandle e.type) = [] →
      handleEvent el e s = (s, none)) := by
  refine ⟨rfl, foldl_handleEventStep_fst e el.handlers s false, ?_⟩
  intro hnil
  have h1 := foldl_handleEventStep_fst e el.handlers s false
  rw [hnil] at h1
  simp only [List.foldl] at h1
  rw [Prod.ext_iff]
  exact ⟨h1, rfl⟩

/-- C8 witness: a failing matching handler (1), a succeeding matching
handler (2) and a non-matching handler run over a `system` event: the
trace records 1 then 2, the dispatch reports no error; and an event
matching no handler leaves the trace empty with no error. -/
theorem handleEvent_contract_witness :
    handleEvent
        { running := true, cancelled := false, queue := [], cap := 10,
          handlers := [traceEvtHandler 1 (some "boom"), traceEvtHandler 2 none] }
        demoEvent ([] : List Nat)
      = ([1, 2], none) ∧
    handleEvent
        { running := true, cancelled := false, queue := [], cap := 10,
          handlers := ([] : List (EventHandler (List Nat))) }
        demoEvent ([] : List Nat)
      = ([], none) := by
  constructor
  · have h := (handleEvent_contract (List Nat)
      { running := true, cancelled := false, queue := [], cap := 10,
        handlers := [traceEvtHandler 1 (some "boom"), traceEvtHandler 2 none] }
      demoEvent []).2.1
    rw [Prod.ext_iff]
    exact ⟨by rw [h]; rfl, rfl⟩
  · exact (handleEvent_contract (List Nat)
      { running := true, cancelled := false, queue := [], cap := 10,
        handlers := [] } demoEvent []).2.2 rfl

/-- The bubble pass only adds `h`: every member of the result is `h` or
was already in the list. -/
theorem mem_insertFromRight {σ : Type} (h : MessageHandler σ) :
    ∀ (l : List (MessageHandler σ)) (y : MessageHandler σ),
      y ∈ insertFromRight h l → y = h ∨ y ∈ l := by
  intro l
  induction l with
  | nil =>
      intro y hy
      simp only [insertFromRight, List.mem_singleton] at hy
      exact Or.inl hy
  | cons x xs ih =>
      intro y hy
      by_cases hall : ((x :: xs).all fun y => h.priority < y.priority) = true
      · rw [insertFromRight, if_pos hall] at hy
        rcases List.mem_cons.mp hy with hyh | hmem
        · exact Or.inl hyh
        · exact Or.inr hmem
      · rw [insertFromRight, if_neg hall] at hy
        rcases List.mem_cons.mp hy with hyx | hmem
        · exact Or.inr (hyx ▸ List.mem_cons_self x xs)
        · rcases ih y hmem with hyh | hyxs
          · exact Or.inl hyh
          · exact Or.inr (List.mem_cons_of_mem x hyxs)

/-- The bubble pass keeps a priority-sorted list sorted. -/
theorem pairwise_insertFromRight {σ : Type} (h : MessageHandler σ) :
    ∀ l : List (MessageHandler σ),
      l.Pairwise (fun a b => a.priority ≤ b.priority) →
      (insertFromRight h l).Pairwise (fun a b => a.priority ≤ b.priority) := by
  intro l
  induction l with
  | nil => intro _; simp [insertFromRight]
  | cons x xs ih =>
      intro hp
      rw [List.pairwise_cons] at hp
      obtain ⟨hx, hxs⟩ := hp
      by_cases hall : ((x :: xs).all fun y => h.priority < y.priority) = true
      · rw [insertFromRight, if_pos hall, List.pairwise_cons]
        refine ⟨?_, List.pairwise_cons.mpr ⟨hx, hxs⟩⟩
        intro y hy
        have hlt := List.all_eq_true.mp hall y hy
        simp only [decide_eq_true_eq] at hlt
        exact le_of_lt hlt
      · rw [insertFromRight, if_neg hall, List.pairwise_cons]
        refine ⟨?_, ih hxs⟩
        intro y hy
        obtain ⟨z, hz, hzp⟩ : ∃ z ∈ x :: xs, z.priority ≤ h.priority := by
          by_contra hcon
          push_neg at hcon
          exact hall (List.all_eq_true.mpr fun y hy => by simpa using hcon y hy)
        have hxz : x.priority ≤ h.priority := by
          rcases List.mem_cons.mp hz with rfl | hzxs
          · exact hzp
          · exact le_trans (hx z hzxs) hzp
        rcases mem_insertFromRight h xs y hy with rfl | hmem
        · exact hxz
        · exact hx y hmem

/-- Effect of the bubble pass on the sublist of one priority value: `h`
goes after every already-present handler of its own priority, and other
priorities are untouched — stability of the insertion. -/
theorem filter_insertFromRight {σ : Type} (h : MessageHandler σ) (k : Int) :
    ∀ l : List (MessageHandler σ),
      (insertFromRight h l).filter (fun y => decide (y.priority = k))
        = l.filter (fun y => decide (y.priority = k))
          ++ (if h.priority = k then [h] else []) := by
  intro l
  induction l with
  | nil =>
      by_cases hk : h.priority = k <;> simp [insertFromRight, hk]
  | cons x xs ih =>
      by_cases hall : ((x :: xs).all fun y => h.priority < y.priority) = true
      · rw [insertFromRight, if_pos hall]
        by_cases hk : h.priority = k
        · have hnone : (x :: xs).filter (fun y => decide (y.priority = k)) = [] := by
            rw [List.filter_eq_nil_iff]
            intro a ha
            have hlt := List.all_eq_true.mp hall a ha
            simp only [decide_eq_true_eq] at hlt ⊢
            omega
          rw [List.filter_cons]
          simp [hk, hnone]
        · rw [List.filter_cons]
          simp [hk]
      · rw [insertFromRight, if_neg hall, List.filter_cons, List.filter_cons]
        by_cases hx : x.priority = k <;> simp [hx, ih]

/-- `registerOne` at a different message type changes nothing. -/
theorem registerOne_apply_ne {σ : Type} (h : MessageHandler σ) (t u : MessageType)
    (f : MessageType → Option (List (MessageHandler σ))) (hne : u ≠ t) :
    registerOne h t f u = f u := by
  by_cases hc : h.canHandle t = true <;> simp [registerOne, hc, hne]

/-- `registerOne` at its own message type inserts when the handler
claims the type. -/
theorem registerOne_apply_self {σ : Type} (h : MessageHandler σ) (t : MessageType)
    (f : MessageType → Option (List (MessageHandler σ))) :
    registerOne h t f t
      = if h.canHandle t then some (insertFromRight h ((f t).getD [])) else f t := by
  by_cases hc : h.canHandle t = true <;> simp [registerOne, hc]

/-- Folding `registerOne` over a duplicate-free list of types updates
each type once. -/
theorem foldl_registerOne_apply {σ : Type} (h : MessageHandler σ) :
    ∀ (ts : List MessageType) (f : MessageType → Option (List (MessageHandler σ)))
      (t : MessageType), ts.Nodup →
      (ts.foldl (fun f u => registerOne h u f) f) t
        = if t ∈ ts ∧ h.canHandle t
          then some (insertFromRight h ((f t).getD []))
          else f t := by
  intro ts
  induction ts with
  | nil => intro f t _; simp
  | cons u ts ih =>
      intro f t hnd
      rw [List.nodup_cons] at hnd
      obtain ⟨hu, hnd⟩ := hnd
      simp only [List.foldl]
      by_cases ht : t = u
      · subst ht
        rw [ih (registerOne h t f) t hnd, if_neg (by simp [hu]),
          registerOne_apply_self]
        by_cases hc : h.canHandle t = true <;> simp [hc, List.mem_cons]
      · rw [ih (registerOne h u f) t hnd,
          registerOne_apply_ne h u t f ht]
        by_cases hmem : t ∈ ts ∧ h.canHandle t = true
        · rw [if_pos hmem, if_pos ⟨List.mem_cons_of_mem u hmem.1, hmem.2⟩]
        · rw [if_neg hmem, if_neg (by simp [List.mem_cons, ht] at hmem ⊢; exact hmem)]

/-- `RegisterHandler` pointwise: for each type, the handler is bubbled
into that type's list exactly when it claims the type. -/
theorem registerHandler_apply {σ : Type} (r : MessageRouter σ)
    (h : MessageHandler σ) (t : MessageType) :
    (registerHandler r h).handlers t
      = if h.canHandle t
        then some (insertFromRight h ((r.handlers t).getD []))
        else r.handlers t := by
  have hmem : t ∈ allMessageTypes := by cases t <;> simp [allMessageTypes]
  have hnd : allMessageTypes.Nodup := by decide
  show (allMessageTypes.foldl (fun f u => registerOne h u f) r.handlers) t = _
  rw [foldl_registerOne_apply h allMessageTypes r.handlers t hnd]
  by_cases hc : h.canHandle t = true <;> simp [hmem, hc]

/-- Any registration sequence starting from sorted per-type lists keeps
every per-type list sorted by priority. -/
theorem foldl_registerHandler_pairwise {σ : Type} :
    ∀ (hs : List (MessageHandler σ)) (r : MessageRouter σ),
      (∀ u, ((r.handlers u).getD []).Pairwise (fun a b => a.priority ≤ b.priority)) →
      ∀ t, (((hs.foldl registerHandler r).handlers t).getD []).Pairwise
        (fun a b => a.priority ≤ b.priority) := by
  intro hs
  induction hs with
  | nil => intro r hr t; exact hr t
  | cons h rest ih =>
      intro r hr t
      simp only [List.foldl]
      apply ih
      intro u
      rw [registerHandler_apply]
      by_cases hc : h.canHandle u = true
      · simpa [hc] using pairwise_insertFromRight h _ (hr u)
      · simpa [hc] using hr u

/-- Any registration sequence appends, within each priority value, the
claiming handlers in registration order. -/
theorem foldl_registerHandler_filter {σ : Type} (k : Int) :
    ∀ (hs : List (MessageHandler σ)) (r : MessageRouter σ) (t : MessageType),
      (((hs.foldl registerHandler r).handlers t).getD []).filter
          (fun h => decide (h.priority = k))
        = ((r.handlers t).getD []).filter (fun h => decide (h.priority = k))
          ++ (hs.filter (fun h => h.canHandle t)).filter
              (fun h => decide (h.priority = k)) := by
  intro hs
  induction hs with
  | nil => intro r t; simp
  | cons h rest ih =>
      intro r t
      simp only [List.foldl]
      rw [ih (registerHandler r h) t, registerHandler_apply]
      by_cases hc : h.canHandle t = true
      · by_cases hk : h.priority = k <;>
          simp [hc, hk, filter_insertFromRight, List.filter_cons]
      · simp [hc, List.filter_cons]

/-- C2: for every registration sequence into a fresh router and every
message type, the resulting handler list is sorted in non-decreasing
priority order, and within each priority value it lists exactly the
claiming handlers in registration order (stable insertion); in
particular registering priorities 50 then 10 for `user_input` yields
the priority-10 handler first. -/
theorem registerHandler_sorted_stable (σ : Type) (hs : List (MessageHandler σ))
    (t : MessageType) :
    (((hs.foldl registerHandler (newMessageRouter σ)).handlers t).getD []).Pairwise
        (fun a b => a.priority ≤ b.priority) ∧
    (∀ k : Int,
      (((hs.foldl registerHandler (newMessageRouter σ)).handlers t).getD []).filter
          (fun h => decide (h.priority = k))
        = (hs.filter (fun h => h.canHandle t)).filter
            (fun h => decide (h.priority = k))) ∧
    (([prio50Handler, prio10Handler].foldl registerHandler
        (newMessageRouter Unit)).handlers .userInput).getD []
      = [prio10Handler, prio50Handler] := by
  refine ⟨?_, ?_, ?_⟩
  · exact foldl_registerHandler_pairwise hs (newMessageRouter σ)
      (fun u => by simp [newMessageRouter]) t
  · intro k
    simpa [newMessageRouter] using
      foldl_registerHandler_filter k hs (newMessageRouter σ) t
  · rfl

end Clawd
